import Mathlib

set_option maxRecDepth 100000
set_option maxHeartbeats 1000000

/-!
Shallow embedding of the ypb pastebin service (st0nie/ypb) and proofs about
its behaviour.  The definitions below are translated from the Rust sources:
`src/util/handler.rs` (parse_filehash, file_to_timestamp, get_handler,
put_handler, delete_handler), `src/util/cleaner.rs` (clean_up) and
`src/util/args.rs`.  Filesystem state is modelled explicitly as an
association list from file names to blobs; a blob carries its content and
its modification timestamp in whole seconds since the Unix epoch.
-/

namespace Ypb

/-- UTF-8 encoding of a single character (standard 1-4 byte encoding). -/
def utf8EncodeChar (c : Char) : List Nat :=
  let n := c.toNat
  if n < 0x80 then [n]
  else if n < 0x800 then [0xC0 + n / 64, 0x80 + n % 64]
  else if n < 0x10000 then [0xE0 + n / 4096, 0x80 + n / 64 % 64, 0x80 + n % 64]
  else [0xF0 + n / 262144, 0x80 + n / 4096 % 64, 0x80 + n / 64 % 64, 0x80 + n % 64]

/-- UTF-8 encoding of a string as a byte sequence. -/
def utf8Encode (s : String) : List Nat :=
  s.data.foldr (fun c acc => utf8EncodeChar c ++ acc) []

/-- Stored blob content.  The Rust handlers branch on whether
`fs::read_to_string` succeeds, i.e. on whether the stored bytes are valid
UTF-8.  `text s` models a blob whose bytes decode to the string `s`;
`binary bs` models a byte sequence that is not valid UTF-8 (for example
`[0xFF]`), on which `read_to_string` fails with an IO error. -/
inductive Content where
  | text (s : String)
  | binary (bs : List Nat)
deriving DecidableEq, Repr

/-- The raw bytes of a stored blob. -/
def Content.toBytes : Content → List Nat
  | .text s => utf8Encode s
  | .binary bs => bs

/-- A stored blob: its content and its filesystem modification timestamp,
in whole seconds since the Unix epoch (assigned at write time). -/
structure Blob where
  content : Content
  mtimeSecs : Nat
deriving DecidableEq, Repr

/-- The storage root directory, modelled as an association list from file
names (direct children of the root) to blobs. -/
abbrev FS := List (String × Blob)

/-- Look a file up by name in the storage root. -/
def FS.lookup (fs : FS) (name : String) : Option Blob :=
  match fs with
  | [] => none
  | (n, b) :: rest => if n = name then some b else FS.lookup rest name

/-- Remove a file (models `fs::remove_file`). -/
def FS.remove (fs : FS) (name : String) : FS :=
  fs.filter (fun e => e.1 != name)

/-- Create or overwrite a file (models `tokio::fs::File::create` followed by
`write_all` and `sync_all`). -/
def FS.insert (fs : FS) (name : String) (b : Blob) : FS :=
  (name, b) :: fs.filter (fun e => e.1 != name)

/-! ### Path handling: Rust `std::path::Path` on Unix

`parse_filehash` calls `Path::file_stem` and `Path::extension` on the
caller-supplied route segment.  We model the Unix `Path` component
semantics: components are separated by `/`; empty components and `.`
components are dropped; `file_name` is the last component unless the path
terminates in `..`; `file_stem`/`extension` split the file name at its
last dot, with a name whose only dot is leading kept whole. -/

/-- Split a character list on the `/` separator. -/
def splitSlash : List Char → List (List Char)
  | [] => [[]]
  | c :: cs =>
    match splitSlash cs with
    | [] => [[]]
    | p :: ps => if c = '/' then [] :: p :: ps else (c :: p) :: ps

/-- The path components of a route segment: split on `/`, dropping empty
components and `.` components (Rust `Path::components` normalization, as it
affects `file_name`). -/
def pathComponents (s : String) : List (List Char) :=
  (splitSlash s.data).filter (fun p => p != [] && p != ['.'])

/-- Rust `Path::file_name`: the last component when it is a normal
component; `none` when the path is empty or terminates in `..`. -/
def fileName (s : String) : Option (List Char) :=
  match (pathComponents s).getLast? with
  | some p => if p = ['.', '.'] then none else some p
  | none => none

/-- Split a file name at its last dot, returning the parts before and
after it; `none` when the name contains no dot. -/
def rsplitDot : List Char → Option (List Char × List Char)
  | [] => none
  | c :: cs =>
    match rsplitDot cs with
    | some (b, a) => some (c :: b, a)
    | none => if c = '.' then some ([], cs) else none

/-- Rust `Path::file_stem` on a file name: the portion before the last
dot, or the whole name when there is no dot or the portion before the last
dot is empty (leading-dot names are kept whole). -/
def stemOfName (p : List Char) : List Char :=
  match rsplitDot p with
  | some (b, _) => if b = [] then p else b
  | none => p

/-- Rust `Path::extension` on a file name: the portion after the last dot,
or `none` when there is no dot or the name starts with its only dot. -/
def extOfName (p : List Char) : Option (List Char) :=
  match rsplitDot p with
  | some (b, a) => if b = [] then none else some a
  | none => none

/-- Embedding of `parse_filehash` (src/util/handler.rs): the stored file
name is the route segment's file stem with the fixed `.txt` suffix (an
absent stem yields the empty string, per `unwrap_or_default`), and the
requested extension is the segment's extension. -/
def parse_filehash (file_hash : String) : String × Option String :=
  let stem :=
    match fileName file_hash with
    | some p => stemOfName p
    | none => []
  let ext :=
    match fileName file_hash with
    | some p => extOfName p
    | none => none
  (String.mk stem ++ ".txt", ext.map String.mk)

/-! ### Identifier generation (put_handler)

`put_handler` computes a CRC-32/ISO-HDLC checksum of the uploaded bytes,
takes its big-endian 4-byte representation and base64-encodes it with the
URL-safe unpadded alphabet (`URL_SAFE_NO_PAD`); the slice `[0..4]` in the
source covers all four checksum bytes. -/

/-- The reflected CRC-32 polynomial of CRC-32/ISO-HDLC. -/
def crc32Poly : Nat := 0xEDB88320

/-- One bit-step of the reflected CRC-32 computation. -/
def crc32Round (crc : Nat) : Nat :=
  if crc % 2 = 1 then Nat.xor (crc / 2) crc32Poly else crc / 2

/-- Fold one input byte into the CRC-32 state. -/
def crc32Byte (crc b : Nat) : Nat := crc32Round^[8] (Nat.xor crc (b % 256))

/-- CRC-32/ISO-HDLC of a byte sequence (init 0xFFFFFFFF, reflected
polynomial 0xEDB88320, final xor 0xFFFFFFFF), as computed by
`crc::Crc::<u32>::new(&crc::CRC_32_ISO_HDLC).checksum`. -/
def crc32 (bs : List Nat) : Nat :=
  Nat.xor (bs.foldl crc32Byte 0xFFFFFFFF) 0xFFFFFFFF

/-- Big-endian 4-byte representation of a 32-bit value (`u32::to_be_bytes`). -/
def toBeBytes32 (n : Nat) : List Nat :=
  [n / 2 ^ 24 % 256, n / 2 ^ 16 % 256, n / 2 ^ 8 % 256, n % 256]

/-- The URL-safe base64 alphabet. -/
def b64Alphabet : List Char :=
  "ABCDEFGHIJKLMNOPQRSTUVWXYZabcdefghijklmnopqrstuvwxyz0123456789-_".data

/-- The URL-safe base64 digit for a 6-bit value. -/
def b64Char (n : Nat) : Char := b64Alphabet.getD n 'A'

/-- URL-safe unpadded base64 encoding
(`base64::engine::general_purpose::URL_SAFE_NO_PAD.encode`). -/
def base64UrlNoPad : List Nat → List Char
  | b0 :: b1 :: b2 :: rest =>
    b64Char (b0 % 256 / 4) :: b64Char (b0 % 4 * 16 + b1 % 256 / 16) ::
      b64Char (b1 % 16 * 4 + b2 % 256 / 64) :: b64Char (b2 % 64) ::
      base64UrlNoPad rest
  | [b0, b1] =>
    [b64Char (b0 % 256 / 4), b64Char (b0 % 4 * 16 + b1 % 256 / 16),
      b64Char (b1 % 16 * 4)]
  | [b0] => [b64Char (b0 % 256 / 4), b64Char (b0 % 4 * 16)]
  | [] => []

/-- Identifier generation as implemented in `put_handler`: the URL-safe
unpadded base64 encoding of all four big-endian bytes of the CRC-32
checksum (the byte slice `[0..4]` is the whole 4-byte array, so no
truncation happens and the result has 6 characters). -/
def generate (bs : List Nat) : String :=
  String.mk (base64UrlNoPad (toBeBytes32 (crc32 bs)))

/-- Modelled from the spec: identifier generation as the specification
words it — the URL-safe unpadded base64 encoding of the checksum bytes
"truncated to its first 4 characters".  Kept alongside `generate` (the
code's version) to compare the two. -/
def generateSpec (bs : List Nat) : String :=
  String.mk ((base64UrlNoPad (toBeBytes32 (crc32 bs))).take 4)

/-- Decimal rendering of an unsigned integer (Rust `u64::to_string`).
The fuel argument of the auxiliary function starts above the value, so the
recursion always terminates with fuel to spare. -/
def u64ToStringAux : Nat → Nat → List Char
  | 0, _ => []
  | fuel + 1, n =>
    if n < 10 then [Char.ofNat (48 + n)]
    else u64ToStringAux fuel (n / 10) ++ [Char.ofNat (48 + n % 10)]

/-- Decimal rendering of an unsigned integer (Rust `u64::to_string`). -/
def u64ToString (n : Nat) : String := String.mk (u64ToStringAux (n + 1) n)

/-- Embedding of `file_to_timestamp` (src/util/handler.rs): a blob's
modification time, formatted as a decimal string of whole seconds since
the Unix epoch (`modified().duration_since(UNIX_EPOCH).as_secs().to_string()`). -/
def file_to_timestamp (b : Blob) : String := u64ToString b.mtimeSecs

/-! ### Responses -/

/-- The HTTP responses the handlers can produce.  `okText` is a plain
`String` 200 response, `okHtml` a 200 with an explicit content type,
`okStream` a streamed raw-byte 200, `redirect307` a temporary redirect
with the given Location, and `internalError` the 500 produced by
`AppError::IoError` (e.g. when `read_to_string` fails on non-UTF-8
content). -/
inductive Response where
  | okText (body : String)
  | okHtml (contentType : String) (body : String)
  | okStream (contentType : String) (body : List Nat)
  | redirect307 (location : String)
  | notFound
  | forbidden
  | internalError
deriving DecidableEq, Repr

/-- The HTTP status code of a response. -/
def Response.status : Response → Nat
  | .okText _ => 200
  | .okHtml _ _ => 200
  | .okStream _ _ => 200
  | .redirect307 _ => 307
  | .notFound => 404
  | .forbidden => 403
  | .internalError => 500

/-- Does the text start with `http`? (Rust `content.starts_with("http")`.) -/
def startsWithHttp (s : String) : Bool := "http".data.isPrefixOf s.data

/-- Does the text contain a space or a line feed?  The source checks
exactly these two characters: `content.contains([' ', '\n'])`. -/
def containsSpaceOrNewline (s : String) : Bool :=
  s.data.contains ' ' || s.data.contains '\n'

/-- The stored-URL test of `get_handler`:
`content.starts_with("http") && !content.contains([' ', '\n'])`. -/
def isUrlShape (s : String) : Bool :=
  startsWithHttp s && !containsSpaceOrNewline s

/-- Modelled from the spec: the external `mime_guess` crate (a collaborator
crate, not part of src/) maps the requested extension to a content type,
with a generic octet-stream default; the repository's test pins
`png ↦ image/png`. -/
def mimeGuess (ext : String) : String :=
  if ext = "png" then "image/png"
  else if ext = "txt" then "text/plain"
  else "application/octet-stream"

/-- The HTML document built by `get_handler`'s `formatdoc!` block: a head
referencing the highlight.js stylesheet parameterized by the configured
theme and the highlight.js script, and a body holding the text in a
`<code>` element whose class is the requested extension. -/
def renderHtml (theme ext content : String) : String :=
  "<head>\n    <link rel=\"stylesheet\" href=\"https://cdn.jsdelivr.net/gh/highlightjs/cdn-release@11.9.0/build/styles/"
    ++ theme
    ++ ".css\">\n    <script src=\"https://cdn.jsdelivr.net/gh/highlightjs/cdn-release@11.9.0/build/highlight.min.js\"></script>\n    <script>hljs.highlightAll();</script>\n</head>\n<body>\n<pre>"
    ++ "<code class=\"" ++ ext ++ "\">" ++ content ++ "</code>"
    ++ "</pre>\n</body>\n"

/-- The `None | Some("txt")` arm of `get_handler`: read the blob as a
string (500 on non-UTF-8 content, since the `?` on `read_to_string`
surfaces the IO error); a whitespace-free string starting with `http` is
answered with a 307 redirect, any other text verbatim as plain text. -/
def getText (blob : Blob) : Response :=
  match blob.content with
  | .binary _ => .internalError
  | .text content =>
    if isUrlShape content then .redirect307 content else .okText content

/-- Embedding of `get_handler` (src/util/handler.rs).  `theme` is the
configured `syntax_theme` argument; `fs` the storage root.  The route
segment is parsed into a stored file name and an advisory extension; a
missing file yields 404; with no extension or extension `txt` the plain
text arm runs; with any other extension a decodable blob is wrapped in
highlighted HTML and a non-decodable blob is streamed raw with a guessed
content type. -/
def get_handler (theme : String) (fs : FS) (file_hash : String) : Response :=
  let parsed := parse_filehash file_hash
  match FS.lookup fs parsed.1 with
  | none => .notFound
  | some blob =>
    match parsed.2 with
    | none => getText blob
    | some ext =>
      if ext = "txt" then getText blob
      else
        match blob.content with
        | .text s => .okHtml "text/html; charset=utf-8" (renderHtml theme ext s)
        | .binary bs => .okStream (mimeGuess ext) bs

/-- The fields of `put_handler`'s formatted response that the claims are
about: the identifier, the byte size and the timestamp secret. -/
structure PutResult where
  hash : String
  size : Nat
  secret : String
deriving DecidableEq, Repr

/-- Embedding of `put_handler` (src/util/handler.rs): derive the
identifier from the uploaded bytes, create or overwrite
`<root>/<identifier>.txt` with the content, and answer with the
identifier, the byte count and the write-time timestamp secret.  `now` is
the filesystem modification timestamp assigned to the write, in whole
seconds. -/
def put_handler (fs : FS) (now : Nat) (content : Content) : PutResult × FS :=
  let hash := generate content.toBytes
  let file_name := hash ++ ".txt"
  (⟨hash, content.toBytes.length, u64ToString now⟩,
    FS.insert fs file_name ⟨content, now⟩)

/-- Embedding of `delete_handler` (src/util/handler.rs): 404 when the
stored file does not exist; otherwise the supplied secret is compared by
string equality against the file's formatted modification timestamp —
on a match the file is removed and a 200 confirmation returned, on a
mismatch 403 is returned and the store left unchanged. -/
def delete_handler (fs : FS) (file_hash : String) (secret : String) :
    Response × FS :=
  let file_name := (parse_filehash file_hash).1
  match FS.lookup fs file_name with
  | none => (.notFound, fs)
  | some blob =>
    if secret = file_to_timestamp blob then
      (.okText ("File " ++ file_hash ++ " deleted successfully"),
        FS.remove fs file_name)
    else
      (.forbidden, fs)

/-! ### The expiry sweep (src/util/cleaner.rs) -/

/-- One directory entry as the sweep sees it: the entry's name together
with the result of reading its metadata — `some t` is the elapsed time in
whole seconds since last modification, `none` models a per-entry failure
(metadata unreadable, modification time in the future, or the file
vanished before it could be examined). -/
structure SweepEntry where
  name : String
  elapsedSecs : Option Nat
deriving DecidableEq, Repr

/-- What one pass of the sweep did to one entry. -/
inductive SweepOutcome where
  | deleted
  | kept
  | errored
deriving DecidableEq, Repr

/-- The per-entry body of `clean_up`'s `for_each_concurrent` closure:
read the metadata (a failure is logged and the entry is left alone) and
remove the file exactly when the elapsed time strictly exceeds the
configured retention period. -/
def sweepEntry (period : Nat) (e : SweepEntry) : SweepOutcome :=
  match e.elapsedSecs with
  | none => .errored
  | some elapsed => if elapsed > period then .deleted else .kept

/-- Embedding of `clean_up` (src/util/cleaner.rs): every enumerated entry
is processed by the per-entry closure; entries are independent (the
source runs them with bounded concurrency, and no outcome depends on
another entry), and a per-entry failure never stops the pass. -/
def clean_up (period : Nat) (entries : List SweepEntry) : List SweepOutcome :=
  entries.map (sweepEntry period)

/-! ## Helper lemmas -/

/-- Rebuilding a string from its character list is the identity. -/
theorem mk_data (s : String) : String.mk s.data = s := by
  cases s
  rfl

theorem splitSlash_ne_nil (l : List Char) : splitSlash l ≠ [] := by
  cases l with
  | nil => simp [splitSlash]
  | cons c cs =>
    rw [splitSlash]
    split
    · simp
    · split <;> simp

theorem splitSlash_eq_single (l : List Char) (h : '/' ∉ l) : splitSlash l = [l] := by
  induction l with
  | nil => rfl
  | cons c cs ih =>
    have hc : c ≠ '/' := fun hc => h (hc ▸ List.mem_cons_self c cs)
    have hcs : '/' ∉ cs := fun m => h (List.mem_cons_of_mem _ m)
    rw [splitSlash, ih hcs]
    simp [hc]

theorem no_slash_of_mem_splitSlash (l : List Char) (p : List Char)
    (hp : p ∈ splitSlash l) : '/' ∉ p := by
  induction l generalizing p with
  | nil =>
    simp [splitSlash] at hp
    simp [hp]
  | cons c cs ih =>
    rcases h : splitSlash cs with _ | ⟨q, qs⟩
    · exact absurd h (splitSlash_ne_nil cs)
    · have heq : splitSlash (c :: cs) =
          if c = '/' then [] :: q :: qs else (c :: q) :: qs := by
        rw [splitSlash, h]
      rw [heq] at hp
      have hq : q ∈ splitSlash cs := by rw [h]; exact List.mem_cons_self q qs
      by_cases hc : c = '/'
      · rw [if_pos hc] at hp
        rcases List.mem_cons.mp hp with rfl | hp2
        · simp
        · exact ih p (h ▸ hp2)
      · rw [if_neg hc] at hp
        rcases List.mem_cons.mp hp with rfl | hp2
        · intro hmem
          rcases List.mem_cons.mp hmem with rfl | hmem2
          · exact hc rfl
          · exact ih q hq hmem2
        · exact ih p (by rw [h]; exact List.mem_cons_of_mem _ hp2)

theorem rsplitDot_eq_none (l : List Char) (h : '.' ∉ l) : rsplitDot l = none := by
  induction l with
  | nil => rfl
  | cons c cs ih =>
    have hc : c ≠ '.' := fun hc => h (hc ▸ List.mem_cons_self c cs)
    have hcs : '.' ∉ cs := fun m => h (List.mem_cons_of_mem _ m)
    rw [rsplitDot, ih hcs]
    simp [hc]

theorem rsplitDot_eq_append (l b a : List Char) (h : rsplitDot l = some (b, a)) :
    l = b ++ '.' :: a := by
  induction l generalizing b a with
  | nil => simp [rsplitDot] at h
  | cons c cs ih =>
    rw [rsplitDot] at h
    rcases h2 : rsplitDot cs with _ | ⟨b2, a2⟩
    · rw [h2] at h
      by_cases hc : c = '.'
      · rw [if_pos hc] at h
        obtain ⟨rfl, rfl⟩ := Prod.mk.injEq .. ▸ Option.some.inj h
        simp [hc]
      · rw [if_neg hc] at h
        exact absurd h (by simp)
    · rw [h2] at h
      obtain ⟨rfl, rfl⟩ := Prod.mk.injEq .. ▸ Option.some.inj h
      have := ih b2 a2 h2
      rw [List.cons_append, ← this]

theorem rsplitDot_append (b a : List Char) (h : '.' ∉ a) :
    rsplitDot (b ++ '.' :: a) = some (b, a) := by
  induction b with
  | nil =>
    rw [List.nil_append, rsplitDot, rsplitDot_eq_none a h]
    simp
  | cons c b ih =>
    rw [List.cons_append, rsplitDot, ih]

theorem mem_stemOfName (p : List Char) (c : Char) (h : c ∈ stemOfName p) : c ∈ p := by
  rcases h2 : rsplitDot p with _ | ⟨b, a⟩
  · have heq : stemOfName p = p := by unfold stemOfName; rw [h2]
    rw [heq] at h
    exact h
  · have heq : stemOfName p = if b = [] then p else b := by unfold stemOfName; rw [h2]
    rw [heq] at h
    by_cases hb : b = []
    · rw [if_pos hb] at h
      exact h
    · rw [if_neg hb] at h
      rw [rsplitDot_eq_append p b a h2]
      exact List.mem_append_left _ h

theorem fileName_no_slash (s : String) (p : List Char) (h : fileName s = some p) :
    '/' ∉ p := by
  rcases hg : (pathComponents s).getLast? with _ | q
  · have : fileName s = none := by unfold fileName; rw [hg]
    rw [this] at h
    exact absurd h (by simp)
  · have heq : fileName s = if q = ['.', '.'] then none else some q := by
      unfold fileName; rw [hg]
    rw [heq] at h
    by_cases hq : q = ['.', '.']
    · rw [if_pos hq] at h
      exact absurd h (by simp)
    · rw [if_neg hq] at h
      obtain rfl : q = p := Option.some.inj h
      have hmem : q ∈ pathComponents s := List.mem_of_mem_getLast? hg
      exact no_slash_of_mem_splitSlash s.data q (List.mem_of_mem_filter hmem)

theorem fileName_eq_self (s : String) (h1 : s.data ≠ []) (hs : '/' ∉ s.data)
    (h3 : s.data ≠ ['.']) (h4 : s.data ≠ ['.', '.']) : fileName s = some s.data := by
  have hb : (s.data != [] && s.data != ['.']) = true := by simp [h1, h3]
  have hcomp : pathComponents s = [s.data] := by
    unfold pathComponents
    rw [splitSlash_eq_single s.data hs]
    simp [List.filter, hb]
  unfold fileName
  rw [hcomp]
  simp [h4]

theorem parse_filehash_plain (s : String) (h1 : s.data ≠ []) (hs : '/' ∉ s.data)
    (hd : '.' ∉ s.data) : parse_filehash s = (s ++ ".txt", none) := by
  have h3 : s.data ≠ ['.'] := fun he => hd (he ▸ List.mem_cons_self '.' [])
  have h4 : s.data ≠ ['.', '.'] := fun he => hd (he ▸ List.mem_cons_self '.' ['.'])
  have hfn := fileName_eq_self s h1 hs h3 h4
  have hrs := rsplitDot_eq_none s.data hd
  simp only [parse_filehash, hfn, stemOfName, extOfName, hrs, mk_data]
  rfl

theorem data_append_dot (id ext : String) :
    (id ++ "." ++ ext).data = id.data ++ '.' :: ext.data := by
  rw [String.data_append, String.data_append]
  simp

theorem parse_filehash_ext (id ext : String)
    (hi1 : id.data ≠ []) (hi2 : '/' ∉ id.data) (hi3 : '.' ∉ id.data)
    (he1 : ext.data ≠ []) (he2 : '/' ∉ ext.data) (he3 : '.' ∉ ext.data) :
    parse_filehash (id ++ "." ++ ext) = (id ++ ".txt", some ext) := by
  have hdata := data_append_dot id ext
  have l1 : 1 ≤ id.data.length := List.length_pos.mpr hi1
  have l2 : 1 ≤ ext.data.length := List.length_pos.mpr he1
  have h1 : (id ++ "." ++ ext).data ≠ [] := by
    rw [hdata]; intro he
    have hl := congrArg List.length he
    simp only [List.length_append, List.length_cons, List.length_nil] at hl
    omega
  have hs : '/' ∉ (id ++ "." ++ ext).data := by
    rw [hdata]; intro hmem
    rcases List.mem_append.mp hmem with hm | hm
    · exact hi2 hm
    · rcases List.mem_cons.mp hm with he | hm2
      · exact absurd he (by decide)
      · exact he2 hm2
  have h3 : (id ++ "." ++ ext).data ≠ ['.'] := by
    rw [hdata]; intro he
    have hl := congrArg List.length he
    simp only [List.length_append, List.length_cons, List.length_nil] at hl
    omega
  have h4 : (id ++ "." ++ ext).data ≠ ['.', '.'] := by
    rw [hdata]; intro he
    have hl := congrArg List.length he
    simp only [List.length_append, List.length_cons, List.length_nil] at hl
    omega
  have hfn := fileName_eq_self (id ++ "." ++ ext) h1 hs h3 h4
  have hrs : rsplitDot (id.data ++ '.' :: ext.data) = some (id.data, ext.data) :=
    rsplitDot_append id.data ext.data he3
  simp only [parse_filehash, hfn, stemOfName, extOfName, hdata, hrs]
  rw [if_neg hi1, if_neg hi1]
  simp [mk_data]

theorem b64Char_mem (n : Nat) : b64Char n ∈ 'A' :: b64Alphabet := by
  unfold b64Char
  rcases h : b64Alphabet[n]? with _ | c
  · rw [List.getD_eq_getElem?_getD, h]
    exact List.mem_cons_self _ _
  · rw [List.getD_eq_getElem?_getD, h]
    exact List.mem_cons_of_mem _ (List.getElem?_mem h)

theorem b64Char_ne (n : Nat) : b64Char n ≠ '/' ∧ b64Char n ≠ '.' := by
  have hall : ∀ c ∈ 'A' :: b64Alphabet, c ≠ '/' ∧ c ≠ '.' := by decide
  exact hall _ (b64Char_mem n)

theorem mem_base64UrlNoPad (l : List Nat) (c : Char) (h : c ∈ base64UrlNoPad l) :
    ∃ n, c = b64Char n := by
  induction l using base64UrlNoPad.induct with
  | case1 b0 b1 b2 rest ih =>
    rw [base64UrlNoPad] at h
    rcases List.mem_cons.mp h with rfl | h
    · exact ⟨_, rfl⟩
    rcases List.mem_cons.mp h with rfl | h
    · exact ⟨_, rfl⟩
    rcases List.mem_cons.mp h with rfl | h
    · exact ⟨_, rfl⟩
    rcases List.mem_cons.mp h with rfl | h
    · exact ⟨_, rfl⟩
    exact ih h
  | case2 b0 b1 =>
    rw [base64UrlNoPad] at h
    simp at h
    rcases h with rfl | rfl | rfl <;> exact ⟨_, rfl⟩
  | case3 b0 =>
    rw [base64UrlNoPad] at h
    simp at h
    rcases h with rfl | rfl <;> exact ⟨_, rfl⟩
  | case4 =>
    rw [base64UrlNoPad] at h
    simp at h

theorem generate_props (bs : List Nat) :
    (generate bs).data ≠ [] ∧ '/' ∉ (generate bs).data ∧ '.' ∉ (generate bs).data := by
  have hdata : (generate bs).data = base64UrlNoPad (toBeBytes32 (crc32 bs)) := rfl
  refine ⟨?_, ?_, ?_⟩
  · rw [hdata, toBeBytes32, base64UrlNoPad]
    simp
  · rw [hdata]
    intro hmem
    obtain ⟨n, hn⟩ := mem_base64UrlNoPad _ _ hmem
    exact (b64Char_ne n).1 hn.symm
  · rw [hdata]
    intro hmem
    obtain ⟨n, hn⟩ := mem_base64UrlNoPad _ _ hmem
    exact (b64Char_ne n).2 hn.symm

theorem lookup_insert (fs : FS) (n : String) (b : Blob) :
    FS.lookup (FS.insert fs n b) n = some b := by
  simp [FS.insert, FS.lookup]

theorem lookup_remove (fs : FS) (n : String) :
    FS.lookup (FS.remove fs n) n = none := by
  induction fs with
  | nil => rfl
  | cons e rest ih =>
    obtain ⟨k, b⟩ := e
    by_cases hk : k = n
    · have hb : ((k, b).1 != n) = false := by simp [hk]
      have : FS.remove ((k, b) :: rest) n = FS.remove rest n := by
        simp [FS.remove, List.filter, hb]
      rw [this]
      exact ih
    · have hb : ((k, b).1 != n) = true := by simp [hk]
      have : FS.remove ((k, b) :: rest) n = (k, b) :: FS.remove rest n := by
        simp [FS.remove, List.filter, hb]
      rw [this, FS.lookup, if_neg hk]
      exact ih

theorem u64ToString_ne_empty (n : Nat) : u64ToString n ≠ "" := by
  unfold u64ToString
  rw [u64ToStringAux]
  by_cases h : n < 10
  · rw [if_pos h]
    intro he
    have := congrArg String.data he
    simp at this
  · rw [if_neg h]
    intro he
    have := congrArg String.data he
    simp at this

theorem append_dot_txt (id : String) : id ++ "." ++ "txt" = id ++ ".txt" := by
  rw [String.append_assoc]
  rfl

theorem isInfix_decomp (a b c : String) : List.IsInfix b.data (a ++ b ++ c).data :=
  ⟨a.data, c.data, by rw [String.data_append, String.data_append]⟩

/-- Sanity check of the CRC-32 embedding: the CRC-32/ISO-HDLC check value
for the ASCII bytes of `123456789` is 0xCBF43926. -/
theorem crc32_check_value : crc32 (utf8Encode "123456789") = 0xCBF43926 := by decide

/-! ## Claims -/

/-- C1 counterexample.  The claim states that after a PUT of any byte
sequence `b`, including non-UTF-8 binary content, a GET of the returned
identifier with no extension returns exactly `b` with status 200.  On the
code this fails twice at concrete inputs: (1) after uploading the single
non-UTF-8 byte 0xFF, a GET with no extension takes the
`None | Some("txt")` arm, whose `fs::read_to_string(..).await?` fails on
invalid UTF-8 and surfaces as a 500 internal error, not a 200 with the
bytes; (2) after uploading the text `https://example.com`, a GET with no
extension responds with a 307 redirect, not a 200 carrying the body. -/
theorem c1_counterexample :
    get_handler "vs" (put_handler [] 0 (Content.binary [255])).2
        (put_handler [] 0 (Content.binary [255])).1.hash = Response.internalError ∧
    Response.status Response.internalError = 500 ∧
    get_handler "vs" (put_handler [] 0 (Content.text "https://example.com")).2
        (put_handler [] 0 (Content.text "https://example.com")).1.hash
      = Response.redirect307 "https://example.com" ∧
    Response.status (Response.redirect307 "https://example.com") = 307 := by
  decide

/-- C1 (amended): after a PUT of content `b`, a GET of the returned
identifier returns exactly `b` byte-for-byte with status 200, provided the
retrieval avoids the two exceptional arms: for valid-UTF-8 text that is
not URL-shaped (does not both start with `http` and be free of space and
newline), the extension-less GET returns the text verbatim as a 200; for
non-UTF-8 binary content, a GET with any extension other than `txt`
streams the stored bytes back unchanged with a 200. -/
theorem c1_roundtrip_amended (fs : FS) (now : Nat) (theme s ext : String)
    (bs : List Nat) (hurl : isUrlShape s = false) (hext : ext ≠ "txt")
    (he1 : ext.data ≠ []) (he2 : '/' ∉ ext.data) (he3 : '.' ∉ ext.data) :
    (get_handler theme (put_handler fs now (Content.text s)).2
        (put_handler fs now (Content.text s)).1.hash = Response.okText s ∧
      Response.status (Response.okText s) = 200) ∧
    (Content.text s).toBytes = utf8Encode s ∧
    get_handler theme (put_handler fs now (Content.binary bs)).2
        ((put_handler fs now (Content.binary bs)).1.hash ++ "." ++ ext)
      = Response.okStream (mimeGuess ext) bs := by
  obtain ⟨hne, hns, hnd⟩ := generate_props (utf8Encode s)
  obtain ⟨hne2, hns2, hnd2⟩ := generate_props bs
  refine ⟨⟨?_, rfl⟩, rfl, ?_⟩
  · have hp := parse_filehash_plain (generate (utf8Encode s)) hne hns hnd
    simp [put_handler, get_handler, Content.toBytes, hp, lookup_insert, getText, hurl]
  · have hp := parse_filehash_ext (generate bs) ext hne2 hns2 hnd2 he1 he2 he3
    simp [put_handler, get_handler, Content.toBytes, hp, lookup_insert, hext]

/-- C1 witness: round-trip of the text `hello` and of the binary byte
0xFF (the latter retrieved with a `.bin` extension). -/
theorem c1_roundtrip_amended_witness :
    get_handler "vs" (put_handler [] 0 (Content.text "hello")).2
        (put_handler [] 0 (Content.text "hello")).1.hash = Response.okText "hello" ∧
    get_handler "vs" (put_handler [] 0 (Content.binary [255])).2
        ((put_handler [] 0 (Content.binary [255])).1.hash ++ "." ++ "bin")
      = Response.okStream (mimeGuess "bin") [255] :=
  ⟨(c1_roundtrip_amended [] 0 "vs" "hello" "bin" [255] (by decide) (by decide)
      (by decide) (by decide) (by decide)).1.1,
    (c1_roundtrip_amended [] 0 "vs" "hello" "bin" [255] (by decide) (by decide)
      (by decide) (by decide) (by decide)).2.2⟩

/-- C2: the claim (and the repository's own `test_hash_format`, which
asserts the identifier `K8mw`) says the base64 encoding is truncated to
its first 4 characters.  The code base64-encodes the whole 4-byte
checksum — the slice `[0..4]` covers all four bytes — so the identifier
for `"1232\n"` (bytes 49 50 51 50 10) is the 6-character `K8mwpw`, not
the 4-character `K8mw` the truncating variant `generateSpec` produces. -/
theorem c2_identifier_eval :
    generate [49, 50, 51, 50, 10] = "K8mwpw" ∧
    (generate [49, 50, 51, 50, 10]).length = 6 ∧
    generateSpec [49, 50, 51, 50, 10] = "K8mw" ∧
    generate [49, 50, 51, 50, 10] ≠ generateSpec [49, 50, 51, 50, 10] ∧
    utf8Encode "1232\n" = [49, 50, 51, 50, 10] := by
  decide

/-- C3 counterexample.  The claim states that a stored URL requested with
a code extension such as `.rs` still gets a 307 redirect.  On the code
the URL check lives only in the `None | Some("txt")` arm of
`get_handler`, so after uploading `https://example.com` a GET with the
`.rs` extension answers 200 with highlighted HTML, not 307. -/
theorem c3_counterexample :
    get_handler "vs" (put_handler [] 0 (Content.text "https://example.com")).2
        ((put_handler [] 0 (Content.text "https://example.com")).1.hash ++ ".rs")
      = Response.okHtml "text/html; charset=utf-8"
          (renderHtml "vs" "rs" "https://example.com") ∧
    Response.status
        (get_handler "vs" (put_handler [] 0 (Content.text "https://example.com")).2
          ((put_handler [] 0 (Content.text "https://example.com")).1.hash ++ ".rs"))
      ≠ 307 ∧
    isUrlShape "https://example.com" = true := by
  decide

/-- C3 (amended): URL-redirect detection happens only in the
no-extension and `txt`-extension arms — there a stored URL is answered
with a 307 redirect; with any other requested extension the stored URL is
wrapped in highlighted HTML like any other text. -/
theorem c3_amended (fs : FS) (now : Nat) (theme s ext : String)
    (hs : isUrlShape s = true) (hext : ext ≠ "txt")
    (he1 : ext.data ≠ []) (he2 : '/' ∉ ext.data) (he3 : '.' ∉ ext.data) :
    get_handler theme (put_handler fs now (Content.text s)).2
        ((put_handler fs now (Content.text s)).1.hash ++ "." ++ ext)
      = Response.okHtml "text/html; charset=utf-8" (renderHtml theme ext s) ∧
    get_handler theme (put_handler fs now (Content.text s)).2
        (put_handler fs now (Content.text s)).1.hash = Response.redirect307 s ∧
    get_handler theme (put_handler fs now (Content.text s)).2
        ((put_handler fs now (Content.text s)).1.hash ++ ".txt")
      = Response.redirect307 s := by
  obtain ⟨hne, hns, hnd⟩ := generate_props (utf8Encode s)
  have hp := parse_filehash_plain (generate (utf8Encode s)) hne hns hnd
  have hpe := parse_filehash_ext (generate (utf8Encode s)) ext hne hns hnd he1 he2 he3
  have hpt := parse_filehash_ext (generate (utf8Encode s)) "txt" hne hns hnd
    (by decide) (by decide) (by decide)
  rw [append_dot_txt] at hpt
  refine ⟨?_, ?_, ?_⟩
  · simp [put_handler, get_handler, Content.toBytes, hpe, lookup_insert, hext]
  · simp [put_handler, get_handler, Content.toBytes, hp, lookup_insert, getText, hs]
  · simp [put_handler, get_handler, Content.toBytes, hpt, lookup_insert, getText, hs]

/-- C3 witness: the URL `https://a` uploaded and retrieved with the `.rs`
extension is highlighted; with no extension and with `.txt` it
redirects. -/
theorem c3_amended_witness :
    get_handler "vs" (put_handler [] 0 (Content.text "https://a")).2
        ((put_handler [] 0 (Content.text "https://a")).1.hash ++ "." ++ "rs")
      = Response.okHtml "text/html; charset=utf-8" (renderHtml "vs" "rs" "https://a") ∧
    get_handler "vs" (put_handler [] 0 (Content.text "https://a")).2
        (put_handler [] 0 (Content.text "https://a")).1.hash
      = Response.redirect307 "https://a" :=
  ⟨(c3_amended [] 0 "vs" "https://a" "rs" (by decide) (by decide) (by decide)
      (by decide) (by decide)).1,
    (c3_amended [] 0 "vs" "https://a" "rs" (by decide) (by decide) (by decide)
      (by decide) (by decide)).2.1⟩

/-- C4 counterexample.  The claim's condition reads "contains no
whitespace/newline characters", and says text that does not satisfy it is
returned verbatim as plain text.  The code only checks for the space and
line-feed characters, so the stored text `"http:\t"` — which contains a
tab, a whitespace character, and hence fails the claim's condition — is
nevertheless answered with a 307 redirect rather than verbatim text. -/
theorem c4_counterexample :
    get_handler "vs" (put_handler [] 0 (Content.text "http:\t")).2
        (put_handler [] 0 (Content.text "http:\t")).1.hash
      = Response.redirect307 "http:\t" ∧
    ('\t' ∈ "http:\t".data ∧ Char.isWhitespace '\t' = true) ∧
    Response.status (Response.redirect307 "http:\t") ≠ 200 := by
  decide

/-- C4 (amended): for stored text `s`, a GET with no extension responds
with a 307 redirect whose location is exactly `s` (no normalization) iff
`s` starts with `http` and contains neither a space nor a line feed (the
exact condition the code tests — other whitespace such as tab or carriage
return is not checked); otherwise the text is returned verbatim as plain
text. -/
theorem c4_amended (fs : FS) (now : Nat) (theme s : String) :
    (isUrlShape s = true →
      get_handler theme (put_handler fs now (Content.text s)).2
          (put_handler fs now (Content.text s)).1.hash = Response.redirect307 s) ∧
    (isUrlShape s = false →
      get_handler theme (put_handler fs now (Content.text s)).2
          (put_handler fs now (Content.text s)).1.hash = Response.okText s) ∧
    isUrlShape s = (startsWithHttp s && !(s.data.contains ' ' || s.data.contains '\n')) := by
  obtain ⟨hne, hns, hnd⟩ := generate_props (utf8Encode s)
  have hp := parse_filehash_plain (generate (utf8Encode s)) hne hns hnd
  refine ⟨fun hs => ?_, fun hs => ?_, rfl⟩
  · simp [put_handler, get_handler, Content.toBytes, hp, lookup_insert, getText, hs]
  · simp [put_handler, get_handler, Content.toBytes, hp, lookup_insert, getText, hs]

/-- C4 witness: `https://a` (no space, no newline) redirects; `http x`
(contains a space) is returned verbatim. -/
theorem c4_amended_witness :
    get_handler "vs" (put_handler [] 0 (Content.text "https://a")).2
        (put_handler [] 0 (Content.text "https://a")).1.hash
      = Response.redirect307 "https://a" ∧
    get_handler "vs" (put_handler [] 3 (Content.text "http x")).2
        (put_handler [] 3 (Content.text "http x")).1.hash
      = Response.okText "http x" :=
  ⟨(c4_amended [] 0 "vs" "https://a").1 (by decide),
    (c4_amended [] 3 "vs" "http x").2.1 (by decide)⟩

/-- C5: DELETE of an identifier returns 404 when no blob file exists;
when the blob exists it removes the file and returns 200 exactly when the
supplied secret string-equals the blob's modification timestamp rendered
as decimal whole seconds since the Unix epoch; any other secret yields
403 and leaves the store unchanged (the blob stays retrievable). -/
theorem c5_delete_authorization (fs : FS) (file_hash secret : String) :
    (FS.lookup fs (parse_filehash file_hash).1 = none →
      delete_handler fs file_hash secret = (Response.notFound, fs) ∧
      Response.status Response.notFound = 404) ∧
    (∀ blob, FS.lookup fs (parse_filehash file_hash).1 = some blob →
      (secret = file_to_timestamp blob →
        delete_handler fs file_hash secret
          = (Response.okText ("File " ++ file_hash ++ " deleted successfully"),
              FS.remove fs (parse_filehash file_hash).1) ∧
        FS.lookup (FS.remove fs (parse_filehash file_hash).1)
            (parse_filehash file_hash).1 = none ∧
        Response.status (Response.okText ("File " ++ file_hash ++ " deleted successfully")) = 200) ∧
      (secret ≠ file_to_timestamp blob →
        delete_handler fs file_hash secret = (Response.forbidden, fs) ∧
        Response.status Response.forbidden = 403)) := by
  refine ⟨fun h => ⟨?_, rfl⟩,
    fun blob h => ⟨fun hsec => ⟨?_, lookup_remove fs _, rfl⟩, fun hsec => ⟨?_, rfl⟩⟩⟩
  · simp [delete_handler, h]
  · simp [delete_handler, h, hsec]
  · simp [delete_handler, h, hsec]

/-- C5 witness: with the blob stored at `a.txt` carrying timestamp 5, the
secret `5` deletes it, the secret `4` is rejected with the store intact,
and deleting from an empty store is 404. -/
theorem c5_delete_authorization_witness :
    delete_handler [("a.txt", ⟨Content.text "hi", 5⟩)] "a" "5"
      = (Response.okText "File a deleted successfully", []) ∧
    delete_handler [("a.txt", ⟨Content.text "hi", 5⟩)] "a" "4"
      = (Response.forbidden, [("a.txt", ⟨Content.text "hi", 5⟩)]) ∧
    delete_handler [] "a" "5" = (Response.notFound, []) :=
  ⟨(((c5_delete_authorization [("a.txt", ⟨Content.text "hi", 5⟩)] "a" "5").2
      ⟨Content.text "hi", 5⟩ (by decide)).1 (by decide)).1,
    (((c5_delete_authorization [("a.txt", ⟨Content.text "hi", 5⟩)] "a" "4").2
      ⟨Content.text "hi", 5⟩ (by decide)).2 (by decide)).1,
    ((c5_delete_authorization [] "a" "5").1 (by decide)).1⟩

/-- C6: one pass of the expiry sweep processes every enumerated entry:
an entry whose elapsed time since last modification strictly exceeds the
retention period is deleted, an entry whose elapsed time does not exceed
it is kept untouched, and a per-entry metadata failure yields an errored
(logged) outcome for that entry without preventing any other entry from
being processed — the pass always produces an outcome for every entry. -/
theorem c6_sweep_pass (period : Nat) (entries : List SweepEntry) (i : Nat)
    (e : SweepEntry) (h : entries[i]? = some e) :
    (clean_up period entries).length = entries.length ∧
    (clean_up period entries)[i]? = some (sweepEntry period e) ∧
    (∀ t, e.elapsedSecs = some t →
      ((sweepEntry period e = SweepOutcome.deleted ↔ period < t) ∧
        (t ≤ period → sweepEntry period e = SweepOutcome.kept))) ∧
    (e.elapsedSecs = none → sweepEntry period e = SweepOutcome.errored) := by
  refine ⟨by simp [clean_up], by simp [clean_up, h], fun t ht => ⟨?_, fun hle => ?_⟩,
    fun hn => by simp [sweepEntry, hn]⟩
  · by_cases hp : period < t
    · simp [sweepEntry, ht, hp]
    · simp [sweepEntry, ht, hp]
  · simp [sweepEntry, ht, Nat.not_lt.mpr hle]

/-- C6 witness: with a retention period of 5 seconds, an entry 10 seconds
old is deleted, an entry 5 seconds old is kept, and an entry whose
metadata is unreadable is errored, all in the same pass. -/
theorem c6_sweep_pass_witness :
    (clean_up 5 [⟨"old", some 10⟩, ⟨"young", some 5⟩, ⟨"bad", none⟩]).length = 3 ∧
    (clean_up 5 [⟨"old", some 10⟩, ⟨"young", some 5⟩, ⟨"bad", none⟩])[0]?
      = some (sweepEntry 5 ⟨"old", some 10⟩) ∧
    sweepEntry 5 ⟨"young", some 5⟩ = SweepOutcome.kept ∧
    sweepEntry 5 ⟨"bad", none⟩ = SweepOutcome.errored :=
  ⟨(c6_sweep_pass 5 [⟨"old", some 10⟩, ⟨"young", some 5⟩, ⟨"bad", none⟩] 0
      ⟨"old", some 10⟩ (by decide)).1,
    (c6_sweep_pass 5 [⟨"old", some 10⟩, ⟨"young", some 5⟩, ⟨"bad", none⟩] 0
      ⟨"old", some 10⟩ (by decide)).2.1,
    ((c6_sweep_pass 5 [⟨"old", some 10⟩, ⟨"young", some 5⟩, ⟨"bad", none⟩] 1
      ⟨"young", some 5⟩ (by decide)).2.2.1 5 rfl).2 (by decide),
    (c6_sweep_pass 5 [⟨"old", some 10⟩, ⟨"young", some 5⟩, ⟨"bad", none⟩] 2
      ⟨"bad", none⟩ (by decide)).2.2.2 rfl⟩

/-- C7: for every caller-supplied route segment the derived file name is
the segment's file stem with the fixed `.txt` suffix; it contains no path
separator, is not a `..` component and is at least four characters, so
joining it to the storage root always addresses a file directly inside
the root — directory components an attacker smuggles in are discarded. -/
theorem c7_path_traversal_safe (s : String) :
    '/' ∉ (parse_filehash s).1.data ∧
    (parse_filehash s).1.data ≠ ['.', '.'] ∧
    4 ≤ (parse_filehash s).1.data.length ∧
    (parse_filehash s).1
      = String.mk (match fileName s with | some p => stemOfName p | none => []) ++ ".txt" := by
  have hdata : (parse_filehash s).1.data
      = (match fileName s with | some p => stemOfName p | none => []) ++ ['.', 't', 'x', 't'] := by
    show (String.mk _ ++ ".txt").data = _
    rw [String.data_append]
  have hstem : ∀ c ∈ (match fileName s with | some p => stemOfName p | none => ([] : List Char)),
      c ≠ '/' := by
    rcases hf : fileName s with _ | p
    · simp [hf]
    · simp only [hf]
      intro c hc he
      exact fileName_no_slash s p hf (he ▸ mem_stemOfName p c hc)
  refine ⟨?_, ?_, ?_, rfl⟩
  · rw [hdata]
    intro hmem
    rcases List.mem_append.mp hmem with hm | hm
    · exact hstem _ hm rfl
    · exact absurd hm (by decide)
  · rw [hdata]
    intro he
    have hl := congrArg List.length he
    simp only [List.length_append, List.length_cons, List.length_nil] at hl
    omega
  · rw [hdata]
    simp

/-- C8: the stored file name derived for a lookup is the same with or
without a trailing extension — the extension is stripped before lookup —
so `GET /{id}` and `GET /{id}.{ext}` read the same blob file, and
`GET /{id}` and `GET /{id}.txt` produce the identical response. -/
theorem c8_extension_independent (id ext : String)
    (hi1 : id.data ≠ []) (hi2 : '/' ∉ id.data) (hi3 : '.' ∉ id.data)
    (he1 : ext.data ≠ []) (he2 : '/' ∉ ext.data) (he3 : '.' ∉ ext.data) :
    (parse_filehash (id ++ "." ++ ext)).1 = (parse_filehash id).1 ∧
    (parse_filehash id).1 = id ++ ".txt" ∧
    (parse_filehash (id ++ "." ++ ext)).2 = some ext ∧
    (∀ theme fs, get_handler theme fs id = get_handler theme fs (id ++ ".txt")) := by
  have h1 := parse_filehash_plain id hi1 hi2 hi3
  have h2 := parse_filehash_ext id ext hi1 hi2 hi3 he1 he2 he3
  have h3 := parse_filehash_ext id "txt" hi1 hi2 hi3 (by decide) (by decide) (by decide)
  rw [append_dot_txt] at h3
  refine ⟨by rw [h1, h2], by rw [h1], by rw [h2], fun theme fs => ?_⟩
  simp only [get_handler, h1, h3]
  cases hl : FS.lookup fs (id ++ ".txt") <;> simp

/-- C8 witness: for the identifier `abc`, the stored file name with and
without the `.rs` extension coincides, and a GET of `abc` equals a GET of
`abc.txt` on a store holding that blob. -/
theorem c8_extension_independent_witness :
    (parse_filehash ("abc" ++ "." ++ "rs")).1 = (parse_filehash "abc").1 ∧
    get_handler "vs" [("abc.txt", ⟨Content.text "hi", 0⟩)] "abc"
      = get_handler "vs" [("abc.txt", ⟨Content.text "hi", 0⟩)] ("abc" ++ ".txt") :=
  ⟨(c8_extension_independent "abc" "rs" (by decide) (by decide) (by decide)
      (by decide) (by decide) (by decide)).1,
    (c8_extension_independent "abc" "rs" (by decide) (by decide) (by decide)
      (by decide) (by decide) (by decide)).2.2.2 "vs"
      [("abc.txt", ⟨Content.text "hi", 0⟩)]⟩

/-- C9: when the stored blob decodes as text and the requested extension
is not `txt`, the GET answers 200 with content type
`text/html; charset=utf-8` and a body containing a `<code>` element whose
class is the requested extension with the original text embedded verbatim
inside it, plus a highlight.js stylesheet link parameterized by the
configured theme name. -/
theorem c9_highlighted_html (theme ext s id : String) (fs : FS) (blob : Blob)
    (hlook : FS.lookup fs (parse_filehash id).1 = some blob)
    (hcontent : blob.content = Content.text s)
    (hparse : (parse_filehash id).2 = some ext)
    (hext : ext ≠ "txt") :
    get_handler theme fs id
      = Response.okHtml "text/html; charset=utf-8" (renderHtml theme ext s) ∧
    Response.status (Response.okHtml "text/html; charset=utf-8" (renderHtml theme ext s)) = 200 ∧
    List.IsInfix ("<code class=\"" ++ ext ++ "\">" ++ s ++ "</code>").data
      (renderHtml theme ext s).data ∧
    List.IsInfix ("styles/" ++ theme ++ ".css").data (renderHtml theme ext s).data := by
  refine ⟨?_, rfl, ?_, ?_⟩
  · simp [get_handler, hlook, hparse, hext, hcontent]
  · refine ⟨("<head>\n    <link rel=\"stylesheet\" href=\"https://cdn.jsdelivr.net/gh/highlightjs/cdn-release@11.9.0/build/styles/"
        ++ theme
        ++ ".css\">\n    <script src=\"https://cdn.jsdelivr.net/gh/highlightjs/cdn-release@11.9.0/build/highlight.min.js\"></script>\n    <script>hljs.highlightAll();</script>\n</head>\n<body>\n<pre>").data,
      ("</pre>\n</body>\n" : String).data, ?_⟩
    simp only [renderHtml, String.data_append, List.append_assoc, List.cons_append,
      List.nil_append]
  · refine ⟨("<head>\n    <link rel=\"stylesheet\" href=\"https://cdn.jsdelivr.net/gh/highlightjs/cdn-release@11.9.0/build/" : String).data,
      ("\">\n    <script src=\"https://cdn.jsdelivr.net/gh/highlightjs/cdn-release@11.9.0/build/highlight.min.js\"></script>\n    <script>hljs.highlightAll();</script>\n</head>\n<body>\n<pre>"
        ++ "<code class=\"" ++ ext ++ "\">" ++ s ++ "</code>"
        ++ "</pre>\n</body>\n").data, ?_⟩
    simp only [renderHtml, String.data_append, List.append_assoc, List.cons_append,
      List.nil_append]

/-- C9 witness: a store holding the text `x` under `id.txt`, retrieved as
`id.rs` with the theme `vs`, yields the highlighted HTML response. -/
theorem c9_highlighted_html_witness :
    get_handler "vs" [("id.txt", ⟨Content.text "x", 0⟩)] "id.rs"
      = Response.okHtml "text/html; charset=utf-8" (renderHtml "vs" "rs" "x") ∧
    List.IsInfix ("<code class=\"" ++ "rs" ++ "\">" ++ "x" ++ "</code>").data
      (renderHtml "vs" "rs" "x").data :=
  ⟨(c9_highlighted_html "vs" "rs" "x" "id.rs" [("id.txt", ⟨Content.text "x", 0⟩)]
      ⟨Content.text "x", 0⟩ (by decide) rfl (by decide) (by decide)).1,
    (c9_highlighted_html "vs" "rs" "x" "id.rs" [("id.txt", ⟨Content.text "x", 0⟩)]
      ⟨Content.text "x", 0⟩ (by decide) rfl (by decide) (by decide)).2.2.1⟩

/-- C10: a DELETE of an existing blob with an empty request body always
returns 403 Forbidden and leaves the store unchanged, because the secret
comparison is exact string equality with no trimming and the formatted
timestamp is a non-empty decimal string, so the empty secret never
matches. -/
theorem c10_empty_secret_forbidden (fs : FS) (file_hash : String) (blob : Blob)
    (h : FS.lookup fs (parse_filehash file_hash).1 = some blob) :
    delete_handler fs file_hash "" = (Response.forbidden, fs) ∧
    Response.status Response.forbidden = 403 ∧
    file_to_timestamp blob ≠ "" := by
  have hne : file_to_timestamp blob ≠ "" := u64ToString_ne_empty blob.mtimeSecs
  refine ⟨?_, rfl, hne⟩
  have hne2 : ("" : String) ≠ file_to_timestamp blob := fun he => hne he.symm
  simp [delete_handler, h, hne2]

/-- C10 witness: deleting the blob stored at `a.txt` (timestamp 5) with
an empty secret is 403 and the store is unchanged. -/
theorem c10_empty_secret_forbidden_witness :
    delete_handler [("a.txt", ⟨Content.text "hi", 5⟩)] "a" ""
      = (Response.forbidden, [("a.txt", ⟨Content.text "hi", 5⟩)]) :=
  (c10_empty_secret_forbidden [("a.txt", ⟨Content.text "hi", 5⟩)] "a"
    ⟨Content.text "hi", 5⟩ (by decide)).1

end Ypb
